import Mathlib

/-!
Verification development for the Milvus API server: a shallow embedding of
the cross-store write/delete coordinator (app/api/data.py together with
app/core/postgres_client.py and app/core/milvus_client.py), the debounced
flush batcher (app/core/auto_flusher.py), the partition lifecycle cache
(app/core/partition_manager.py, app/core/redis_partition_manager.py and
app/core/redis_client.py) and the metadata allow-list filter
(app/schemas/milvus_metadata.py), with theorems about the behaviour of
those components.

Conventions of the embedding:

* wall-clock timestamps are integers (seconds); the Python value
  datetime.min is the constant below (0001-01-01 expressed relative to the
  Unix epoch), so every realistic clock reading is nonnegative;
* float embedding vectors are opaque tokens (Nat) handed back by the
  embedding service: no claim inspects their numeric content;
* each external call (relational transaction, embedding service, vector
  store, host memory reading) is parameterised by the outcome the outside
  world produces for it, exactly at the call sites the Python code has;
* JSON metadata values are modelled by the inductive JVal; only their
  None-ness is ever inspected by the code under verification.
-/

/-- A JSON-ish metadata value as carried in the request metadata dict.
The code only ever distinguishes null from non-null. -/
inductive JVal where
  | vnull
  | vstr (s : String)
  | vint (n : Int)
  | vbool (b : Bool)
deriving DecidableEq, Repr

/-- Metadata dictionaries keep Python dict insertion order. -/
abbrev Metadata := List (String × JVal)

/-- config.py: MILVUS_METADATA_FIELDS, the allow-list of metadata keys
mirrored into the vector store. -/
def MILVUS_METADATA_FIELDS : List String :=
  ["content_type", "source_type", "language", "tags", "category", "source_url"]

/-- app/schemas/milvus_metadata.py, filter_milvus_metadata: keep the pairs
whose key is in the configured field list and whose value is not None. -/
def filter_milvus_metadata (fields : List String) (all_metadata : Metadata) : Metadata :=
  all_metadata.filter (fun kv => fields.contains kv.1 && kv.2 != JVal.vnull)

/-! ## Relational store model (PostgreSQL)

Tables from postgres_client.py init_account_tables: documents has
UNIQUE(chat_bot_id, content_name); document_chunks carries a foreign key
(doc_id, chat_bot_id) with ON DELETE CASCADE. -/

structure DocRow where
  doc_id : Nat
  chat_bot_id : String
  content_name : String
  chunk_count : Nat
  metadata : Metadata
deriving DecidableEq, Repr

structure ChunkRow where
  doc_id : Nat
  chat_bot_id : String
  chunk_index : Nat
  chunk_text : String
deriving DecidableEq, Repr

structure PGState where
  docs : List DocRow
  chunks : List ChunkRow
  next_doc_id : Nat
deriving DecidableEq, Repr

/-- Whether a documents row with this (chat_bot_id, content_name) exists. -/
def pgHasDoc (pg : PGState) (bot name : String) : Bool :=
  pg.docs.any (fun d => d.chat_bot_id == bot && d.content_name == name)

/-- Python str.startswith over the character sequences. -/
def charsStartWith : List Char → List Char → Bool
  | [], _ => true
  | _ :: _, [] => false
  | p :: ps, c :: cs => p == c && charsStartWith ps cs

/-- str.startswith on strings (character-level, as Python defines it). -/
def pyStartsWith (s p : String) : Bool :=
  charsStartWith p.toList s.toList

/-- postgres_client.py get_existing_content_names: swap the URL scheme of a
content name (str.replace with count 1; the guard guarantees the string
starts with the scheme, so the first occurrence is the leading one). -/
def swapScheme (n : String) : String :=
  if pyStartsWith n "http://" then
    String.mk ("https://".toList ++ (n.toList.drop 7))
  else String.mk ("http://".toList ++ (n.toList.drop 8))

/-- The content name is URL-shaped (startswith http:// or https://). -/
def isUrlName (n : String) : Bool :=
  pyStartsWith n "http://" || pyStartsWith n "https://"

/-- The fallback lookup for one missing name in the multi-name branch of
get_existing_content_names (postgres_client.py lines 897-922): if the name
is URL-shaped, query the scheme-swapped variant and append the stored name
when it is found and not already in the accumulated list. -/
def altLookup (pg : PGState) (bot : String) (acc : List String) (n : String) : List String :=
  if isUrlName n then
    if pgHasDoc pg bot (swapScheme n) && !(acc.contains (swapScheme n)) then
      acc ++ [swapScheme n]
    else acc
  else acc

/-- postgres_client.py get_existing_content_names: return the stored
content names that match the request. A single-element request takes the
dedicated branch (exact hit returns the requested name; a URL-shaped miss
retries with the opposite scheme and returns the stored name). Requests of
any other length take the IN-query branch followed by the per-missing-name
fallback (Python iterates set(content_names) - set(found), an order the
language does not fix; we determinise it to deduplicated request order). -/
def get_existing_single (pg : PGState) (bot n : String) : List String :=
  if pgHasDoc pg bot n then [n]
  else if isUrlName n then
    if pgHasDoc pg bot (swapScheme n) then [swapScheme n] else []
  else []

def get_existing_multi (pg : PGState) (bot : String) (ns : List String) :
    List String :=
  let found := (pg.docs.filter
    (fun d => d.chat_bot_id == bot && ns.contains d.content_name)).map
      (fun d => d.content_name)
  let missing := ns.dedup.filter (fun n => !(found.contains n))
  missing.foldl (altLookup pg bot) found

def get_existing_content_names (pg : PGState) (bot : String)
    (content_names : List String) : List String :=
  match content_names with
  | [n] => get_existing_single pg bot n
  | ns => get_existing_multi pg bot ns

/-- Errors surfaced by the relational store. -/
inductive DBError where
  | uniqueViolation
deriving DecidableEq, Repr

/-- postgres_client.py insert_document_with_chunks_transaction: one ACID
transaction inserting the documents row and all chunk rows. The INSERT has
no ON CONFLICT clause, so under UNIQUE(chat_bot_id, content_name) a
duplicate key raises a unique-violation error (it never yields a row). -/
def insert_document_with_chunks_transaction (pg : PGState) (bot name : String)
    (md : Metadata) (chunkTexts : List (Nat × String)) :
    Except DBError (Nat × PGState) :=
  if pgHasDoc pg bot name then .error .uniqueViolation
  else
    let id := pg.next_doc_id
    .ok (id,
      { docs := pg.docs ++ [⟨id, bot, name, chunkTexts.length, md⟩]
        chunks := pg.chunks ++ chunkTexts.map (fun c => ⟨id, bot, c.1, c.2⟩)
        next_doc_id := id + 1 })

/-- postgres_client.py delete_document: DELETE the documents row by
(chat_bot_id, doc_id); the chunk rows cascade via the foreign key. -/
def pg_delete_document (pg : PGState) (bot : String) (docId : Nat) : PGState :=
  { docs := pg.docs.filter (fun d => !(d.chat_bot_id == bot && d.doc_id == docId))
    chunks := pg.chunks.filter (fun c => !(c.chat_bot_id == bot && c.doc_id == docId))
    next_doc_id := pg.next_doc_id }

/-- The relational state right after the insert transaction of
insert_document_with_chunks_transaction commits for a fresh key. -/
def insertedPG (pg : PGState) (bot name : String) (md : Metadata)
    (cs : List (Nat × String)) : PGState :=
  { docs := pg.docs ++ [⟨pg.next_doc_id, bot, name, cs.length, md⟩]
    chunks := pg.chunks ++ cs.map (fun c => ⟨pg.next_doc_id, bot, c.1, c.2⟩)
    next_doc_id := pg.next_doc_id + 1 }

/-- postgres_client.py delete_documents_by_content_names: count the
matching documents and joined chunks, then delete both (chunks first,
explicitly, then the documents rows). Returns (doc count, chunk count). -/
def pg_delete_documents_by_content_names (pg : PGState) (bot : String)
    (names : List String) : PGState × Nat × Nat :=
  let hitDocs := pg.docs.filter
    (fun d => d.chat_bot_id == bot && names.contains d.content_name)
  let hitIds := hitDocs.map (fun d => d.doc_id)
  let hitChunks := pg.chunks.filter
    (fun c => c.chat_bot_id == bot && hitIds.contains c.doc_id)
  if hitDocs.length == 0 then (pg, 0, 0)
  else
    ({ docs := pg.docs.filter
         (fun d => !(d.chat_bot_id == bot && names.contains d.content_name))
       chunks := pg.chunks.filter
         (fun c => !(c.chat_bot_id == bot && hitIds.contains c.doc_id))
       next_doc_id := pg.next_doc_id },
     hitDocs.length, hitChunks.length)

/-! ## Vector store model (Milvus) -/

/-- One vector entity as built in milvus_client.py insert_vectors: the
entity columns are doc_id, chat_bot_id, content_name, chunk_index, the
dense embedding (opaque token) and the metadata JSON shared by all chunks
of the insert call. The owning collection and partition are recorded so
that deletes can filter on them. -/
structure VecEntity where
  collection : String
  part_name : String
  doc_id : Nat
  chat_bot_id : String
  content_name : String
  chunk_index : Nat
  embedding : Nat
  text : String
  metadata : Metadata
deriving DecidableEq, Repr

/-- config.py get_collection_name / data.py: collection_{account_name}. -/
def collectionName (account : String) : String :=
  "collection_" ++ account

/-- data.py generate_partition_name: bot_{chat_bot_id with dashes removed}. -/
def generate_partition_name (chat_bot_id : String) : String :=
  "bot_" ++ String.mk (chat_bot_id.toList.filter (fun c => c ≠ '-'))

/-- milvus_client.py insert_vectors: append one entity per chunk, all
tagged with the same doc_id, chat_bot_id, content_name and metadata. -/
def milvus_insert_vectors (mv : List VecEntity) (account bot pname : String)
    (docId : Nat) (cname : String) (chunks : List ((Nat × String) × Nat))
    (md : Metadata) : List VecEntity :=
  mv ++ chunks.map (fun c =>
    ⟨collectionName account, pname, docId, bot, cname, c.1.1, c.2, c.1.2, md⟩)

/-- milvus_client.py delete_by_content_names: remove every entity of the
collection whose chat_bot_id matches and whose content_name is in the
list; returns the new entity list and the deleted count. -/
def milvus_delete_by_content_names (mv : List VecEntity) (coll bot : String)
    (names : List String) : List VecEntity × Nat :=
  let hit := fun (e : VecEntity) =>
    e.collection == coll && e.chat_bot_id == bot && names.contains e.content_name
  (mv.filter (fun e => !(hit e)), (mv.filter hit).length)

/-! ## Flush marks (auto_flusher.mark_for_flush, the part the saga uses) -/

/-- The dirty set of the flush batcher, as touched by the data API: add the
collection if not yet present (Python set add). -/
def markDirty (dirty : List String) (coll : String) : List String :=
  if dirty.contains coll then dirty else dirty ++ [coll]

/-! ## The world the saga coordinator acts on -/

structure World where
  pg : PGState
  milvus : List VecEntity
  dirty : List String
deriving DecidableEq, Repr

/-! ## Retry helper (embedding.batch_embed_with_retry and
milvus_client.insert_vectors_with_retry share this shape:
for attempt in range(max_retries + 1): try ... except: if last, raise). -/

/-- Run attempts i, i+1, ..., i+fuel; return the first success, or none
when every attempt fails (the final exception is re-raised). -/
def retryFrom (attempt : Nat → Option α) : Nat → Nat → Option α
  | i, 0 => attempt i
  | i, fuel + 1 =>
    match attempt i with
    | some v => some v
    | none => retryFrom attempt (i + 1) fuel

/-- Retry wrapper with max_retries retries after the first attempt. -/
def retryCall (attempt : Nat → Option α) (maxRetries : Nat) : Option α :=
  retryFrom attempt 0 maxRetries

/-! ## Single-document insert (data.py insert_document) -/

/-- A chunk of the insert request: (chunk_index, text). -/
abbrev ChunkIn := Nat × String

structure InsertRequest where
  account_name : String
  chat_bot_id : String
  content_name : String
  metadata : Metadata
  chunks : List ChunkIn
deriving Repr

/-- Outcomes of the two external phases of an insert call, indexed by
attempt number: the embedding service returns one opaque vector per chunk
text on success, and the vector-store insert either succeeds or raises. -/
structure InsertEnv where
  embedAttempt : Nat → Option (List Nat)
  milvusAttempt : Nat → Bool

/-- The structured result of data.py insert_document: a 201 success with
the doc_id, a skipped duplicate, or the HTTP 500 terminal errors of the
embedding phase, the vector phase and the unexpected-exception handler. -/
inductive InsertOutcome where
  | success (docId : Nat)
  | skipped
  | embeddingError
  | milvusError
  | unexpectedError
deriving DecidableEq, Repr

/-- data.py insert_document from the point the relational transaction has
returned (lines 170-265): a None doc_id is converted to a skipped result;
then embedding generation with retry (on permanent failure: compensating
delete_document of the just-inserted row, then HTTP 500); then vector
insert with retry (same compensation on permanent failure); then the
collection is marked for flush and the call succeeds. -/
def insert_document_after_txn (env : InsertEnv) (req : InsertRequest)
    (st : World) (docIdOpt : Option Nat) : World × InsertOutcome :=
  match docIdOpt with
  | none => (st, .skipped)
  | some docId =>
    match retryCall env.embedAttempt 3 with
    | none =>
      ({ st with pg := pg_delete_document st.pg req.chat_bot_id docId },
       .embeddingError)
    | some embeddings =>
      match retryCall (fun i => if env.milvusAttempt i then some () else none) 3 with
      | none =>
        ({ st with pg := pg_delete_document st.pg req.chat_bot_id docId },
         .milvusError)
      | some _ =>
        let milvus_metadata := filter_milvus_metadata MILVUS_METADATA_FIELDS req.metadata
        ({ pg := st.pg
           milvus := milvus_insert_vectors st.milvus req.account_name
             req.chat_bot_id (generate_partition_name req.chat_bot_id) docId
             req.content_name (req.chunks.zip embeddings) milvus_metadata
           dirty := markDirty st.dirty (collectionName req.account_name) },
         .success docId)

/-- data.py insert_document: duplicate pre-check against the existing
content names (skipped without mutating either store on a hit), then the
relational transaction (a unique-violation raised by a racing identical
insert reaches the outer handler while doc_id is still None, so no
rollback is attempted and an HTTP 500 is returned), then the phases above. -/
def insert_document (env : InsertEnv) (req : InsertRequest) (st : World) :
    World × InsertOutcome :=
  if get_existing_content_names st.pg req.chat_bot_id [req.content_name] ≠ [] then
    (st, .skipped)
  else
    match insert_document_with_chunks_transaction st.pg req.chat_bot_id
      req.content_name req.metadata req.chunks with
    | .error _ => (st, .unexpectedError)
    | .ok (docId, pg1) =>
      insert_document_after_txn env req { st with pg := pg1 } (some docId)

/-! ## Multi-document delete (data.py delete_document) -/

structure DeleteRequest where
  account_name : String
  chat_bot_id : String
  content_name : List String
deriving Repr

/-- Outcomes the outside world produces for the two delete phases. -/
structure DeleteEnv where
  milvusDeleteOk : Bool
  pgDeleteOk : Bool

structure DeleteResponse where
  status : String
  total_requested : Nat
  total_success : Nat
  total_failed : Nat
  successful_content_names : List String
  failed_content_names : List String
  deleted_documents : Nat
  deleted_chunks : Nat
  deleted_vectors : Nat
deriving DecidableEq, Repr

/-- A delete call either returns a 200 response or raises an HTTP 500 from
one of the two store phases. -/
inductive DeleteOutcome where
  | ok (resp : DeleteResponse)
  | milvusHttpError
  | pgHttpError
deriving DecidableEq, Repr

/-- data.py delete_document (lines 832-978): resolve the requested names
against the relational store; when none exist, return early with status
"success" and every requested name in the failed list; otherwise delete
the vectors first, then the relational rows (an exception in either phase
raises HTTP 500 — for the relational phase after the vectors are already
gone, the known inconsistency is only logged), mark the collection dirty
and compute the status from the successful-name count. -/
def delete_document_api (env : DeleteEnv) (req : DeleteRequest) (st : World) :
    World × DeleteOutcome :=
  let coll := collectionName req.account_name
  let existing := get_existing_content_names st.pg req.chat_bot_id req.content_name
  if existing.isEmpty then
    (st, .ok
      { status := "success"
        total_requested := req.content_name.length
        total_success := 0
        total_failed := req.content_name.length
        successful_content_names := []
        failed_content_names := req.content_name
        deleted_documents := 0
        deleted_chunks := 0
        deleted_vectors := 0 })
  else
    let missing :=
      if existing.length < req.content_name.length then
        req.content_name.eraseDups.filter (fun n => !(existing.contains n))
      else []
    if !env.milvusDeleteOk then (st, .milvusHttpError)
    else
      let md := milvus_delete_by_content_names st.milvus coll req.chat_bot_id existing
      if !env.pgDeleteOk then ({ st with milvus := md.1 }, .pgHttpError)
      else
        let pd := pg_delete_documents_by_content_names st.pg req.chat_bot_id existing
        let successful := existing
        let failed := missing
        let status :=
          if successful.length = req.content_name.length then "success"
          else if 0 < successful.length then "partial_success"
          else "failed"
        ({ pg := pd.1
           milvus := md.1
           dirty := markDirty st.dirty coll },
         .ok
          { status := status
            total_requested := req.content_name.length
            total_success := successful.length
            total_failed := failed.length
            successful_content_names := successful
            failed_content_names := failed
            deleted_documents := pd.2.1
            deleted_chunks := pd.2.2
            deleted_vectors := md.2 })

/-! ## Debounced flush batcher (app/core/auto_flusher.py) -/

/-- datetime.min (0001-01-01) in seconds relative to the Unix epoch. Every
reading of datetime.now() on a real clock is nonnegative on this scale. -/
def datetimeMin : Int := -62135596800

/-- First-match lookup in an association list keyed by collection name
(Python dict lookup; keys are unique in a dict). -/
def lookupTime (m : List (String × Int)) (k : String) : Option Int :=
  match m with
  | [] => none
  | kv :: rest => if kv.1 = k then some kv.2 else lookupTime rest k

/-- Insert-or-replace in an association list keyed by collection name
(Python dict assignment). -/
def setEntry (m : List (String × Int)) (k : String) (v : Int) : List (String × Int) :=
  if m.any (fun kv => kv.1 == k) then
    m.map (fun kv => if kv.1 = k then (k, v) else kv)
  else m ++ [(k, v)]

/-- The state of AutoFlusher: the dirty set collections_to_flush and the
two timestamp maps. delay_seconds and max_wait_seconds are carried by the
caller (defaults 0.5s and 5s in the observed instance). -/
structure FlusherState where
  collections_to_flush : List String
  last_change_time : List (String × Int)
  last_flush_time : List (String × Int)
deriving DecidableEq, Repr

/-- auto_flusher.mark_for_flush: add the collection to the dirty set and
record last_change_time = now. -/
def mark_for_flush (st : FlusherState) (coll : String) (now : Int) : FlusherState :=
  { st with
    collections_to_flush := markDirty st.collections_to_flush coll
    last_change_time := setEntry st.last_change_time coll now }

/-- The eligibility test of _check_and_flush for one dirty collection:
last_change defaults to current_time (dict.get(coll, current_time)) and
last_flush defaults to datetime.min; flush when time since change reached
delay_seconds or time since flush reached max_wait_seconds. -/
def shouldFlush (st : FlusherState) (now delay maxWait : Int) (coll : String) : Bool :=
  let last_change := ((lookupTime st.last_change_time coll).getD now)
  let last_flush := ((lookupTime st.last_flush_time coll).getD datetimeMin)
  decide (delay ≤ now - last_change) || decide (maxWait ≤ now - last_flush)

/-- auto_flusher._flush_collections: flush each listed collection; on
success record last_flush_time = now and discard the dirty mark; an
exception leaves both untouched (caught per collection, loop continues). -/
def flush_collections (flushOk : String → Bool) (now : Int)
    (names : List String) (st : FlusherState) : FlusherState :=
  names.foldl (fun acc coll =>
    if flushOk coll then
      { acc with
        last_flush_time := setEntry acc.last_flush_time coll now
        collections_to_flush := acc.collections_to_flush.filter (fun c => c != coll) }
    else acc) st

/-- auto_flusher._check_and_flush: one poll of the background loop —
collect the dirty collections that satisfy the eligibility test, then
flush them. -/
def check_and_flush (flushOk : String → Bool) (now delay maxWait : Int)
    (st : FlusherState) : FlusherState :=
  let toProcess := st.collections_to_flush.filter (shouldFlush st now delay maxWait)
  flush_collections flushOk now toProcess st

/-! ## Memory-pressure pass (partition_manager._check_memory_and_cleanup)

The pass reads host memory utilisation (psutil.virtual_memory().percent),
modelled as the sequence mem : Nat → Int of successive readings — mem 0 is
the reading that opens the pass and mem (i + 1) the re-check taken after
the i-th eviction. The tracked partitions are the entries of the
last_access_time map, (key, lastAccessAt) pairs. The function returns the
sequence of unload calls the pass issues, in order. -/

/-- Python sorted(last_access_time.items(), key=lambda x: x[1]): a stable
sort by the access-time component. -/
def sortedByAccess (la : List (String × Int)) : List (String × Int) :=
  la.insertionSort (fun a b => a.2 ≤ b.2)

/-- The eviction loop body: unload the next partition, re-read memory and
stop once utilisation has dropped below the threshold. -/
def evictSeq (mem : Nat → Int) (thr : Int) : List (String × Int) → Nat → List (String × Int)
  | [], _ => []
  | e :: rest, i =>
    e :: (if mem (i + 1) < thr then [] else evictSeq mem thr rest (i + 1))

/-- partition_manager.py _check_memory_and_cleanup (lines 462-490): when
utilisation exceeds the threshold, sort the tracked partitions by last
access time ascending, unload the oldest max(1, n // 4) of them in order,
re-checking memory after each unload and breaking early once it reads
below the threshold. -/
def check_memory_and_cleanup (mem : Nat → Int) (thr : Int)
    (la : List (String × Int)) : List (String × Int) :=
  if thr < mem 0 then
    let sorted_partitions := sortedByAccess la
    let unload_count := max 1 (sorted_partitions.length / 4)
    evictSeq mem thr (sorted_partitions.take unload_count) 0
  else []

/-! ## Startup resynchronisation (redis_partition_manager.sync_partition_states)

The durable tracking store (Redis keys milvus:partitions:{coll}:{part}) is
modelled as the list of tracked (collection, partition) keys. The vector
store is a list of existing collections with their non-default partitions.
The collection-level load check of lines 332-359 (utility.has_collection
followed by a collection.load() probe whose success, or an
"already loaded" error message, counts as loaded) is abstracted by the
predicate loadCheckOk applied to an existing collection. -/

structure MilvusCluster where
  collections : List (String × List String)
deriving DecidableEq, Repr

/-- redis_client.PartitionStateManager.set_partition_loaded at the level
of key membership: create the key if absent (force_update only refreshes
the stored timestamps, which the tracked-key set does not record). -/
def addTracked (r : List (String × String)) (e : String × String) :
    List (String × String) :=
  if r.contains e then r else r ++ [e]

/-- What the pass concludes the vector store reports for one (collection,
partition) key: the collection exists, has that non-default partition,
and the collection-level load check concluded loaded (lines 361-367
treat every partition of a loaded collection as loaded). -/
def milvusReportsLoaded (loadCheckOk : String → Bool) (mv : MilvusCluster)
    (e : String × String) : Bool :=
  match mv.collections.lookup e.1 with
  | none => false
  | some parts => !parts.isEmpty && loadCheckOk e.1 && parts.contains e.2

/-- redis_partition_manager.py sync_partition_states (lines 262-423), per
collection name: a missing collection raises when constructing the
Collection handle and is skipped; a collection without non-default
partitions is skipped; otherwise, when the load check concludes loaded,
every partition of the collection is written to the tracking store
(set_partition_loaded with force_update). Keys already in the tracking
store are never deleted by the pass. -/
def sync_partition_states (loadCheckOk : String → Bool) (mv : MilvusCluster)
    (collection_names : List String) (redis : List (String × String)) :
    List (String × String) :=
  collection_names.foldl (fun r cname =>
    match mv.collections.lookup cname with
    | none => r
    | some parts =>
      if parts.isEmpty then r
      else if loadCheckOk cname then
        parts.foldl (fun racc p => addTracked racc (cname, p)) r
      else r) redis

/-! ## Singleflight partition loading (ensure_partition_loaded)

An interleaving model of N asyncio tasks running
partition_manager.ensure_partition_loaded (lines 216-294) for one fixed
(collection, partition) key, in the scenario of the claim: the partition
starts untracked, force_reload is false, the memory pass is a no-op
(utilisation below threshold) and the vector-store load call succeeds.
Each transition is one of the atomic regions the code executes between
suspension points; the per-key asyncio.Lock is explicit. -/

inductive ThreadPC where
  /-- before the fast-path check of line 241 -/
  | ready
  /-- blocked on acquiring the per-key lock (line 247) -/
  | waiting
  /-- holding the lock, before the double-check of line 249 -/
  | holding
  /-- holding the lock, double-check saw not loaded; about to issue the
  vector-store load call (lines 254-287) -/
  | loading
  /-- returned with this result -/
  | finished (res : Bool)
deriving DecidableEq, Repr

structure LoadSys (n : Nat) where
  /-- is_partition_loaded for the key (the tracked-loaded belief) -/
  loaded : Bool
  /-- number of load calls issued to the vector store -/
  loads : Nat
  /-- holder of the per-key lock, if held -/
  lock : Option (Fin n)
  pcs : Fin n → ThreadPC

/-- One atomic region of ensure_partition_loaded executed by task i. -/
inductive LoadStep {n : Nat} : LoadSys n → LoadSys n → Prop
  /-- fast path, line 241: tracked as loaded — refresh the access time and
  return true without touching the lock or the vector store -/
  | fastHit (s : LoadSys n) (i : Fin n) (hpc : s.pcs i = .ready)
      (hl : s.loaded = true) :
      LoadStep s { s with pcs := Function.update s.pcs i (.finished true) }
  /-- fast path misses: proceed to the lock -/
  | fastMiss (s : LoadSys n) (i : Fin n) (hpc : s.pcs i = .ready)
      (hl : s.loaded = false) :
      LoadStep s { s with pcs := Function.update s.pcs i .waiting }
  /-- acquire the free per-key lock (line 247) -/
  | acquire (s : LoadSys n) (i : Fin n) (hpc : s.pcs i = .waiting)
      (hlock : s.lock = none) :
      LoadStep s { s with lock := some i, pcs := Function.update s.pcs i .holding }
  /-- double-check, line 249: another task loaded while we waited — return
  true without issuing a load -/
  | recheckHit (s : LoadSys n) (i : Fin n) (hpc : s.pcs i = .holding)
      (hlock : s.lock = some i) (hl : s.loaded = true) :
      LoadStep s { s with lock := none, pcs := Function.update s.pcs i (.finished true) }
  /-- double-check still not loaded: keep the lock and move to the load
  call (the memory pass of line 255 is a no-op here) -/
  | recheckMiss (s : LoadSys n) (i : Fin n) (hpc : s.pcs i = .holding)
      (hlock : s.lock = some i) (hl : s.loaded = false) :
      LoadStep s { s with pcs := Function.update s.pcs i .loading }
  /-- issue the load call (line 270), record the tracking state, release
  the lock and return true -/
  | doLoad (s : LoadSys n) (i : Fin n) (hpc : s.pcs i = .loading)
      (hlock : s.lock = some i) :
      LoadStep s { s with loaded := true, loads := s.loads + 1, lock := none,
                          pcs := Function.update s.pcs i (.finished true) }

/-- Initial configuration: partition untracked, no load issued, lock free,
every task about to call ensure_partition_loaded. -/
def LoadSys.init (n : Nat) : LoadSys n :=
  { loaded := false, loads := 0, lock := none, pcs := fun _ => .ready }

/-- Reachability along interleavings of the tasks. -/
def LoadReachable {n : Nat} (s : LoadSys n) : Prop :=
  Relation.ReflTransGen LoadStep (LoadSys.init n) s

/-- The inductive invariant of the singleflight model: the tracked flag
counts the loads (zero or one), every finished task returned true and saw
the partition loaded, the lock is held by any task inside the critical
section, and a task about to load has observed the partition unloaded. -/
def LoadInv {n : Nat} (s : LoadSys n) : Prop :=
  (s.loaded = true → s.loads = 1) ∧
  (s.loaded = false → s.loads = 0) ∧
  (∀ i r, s.pcs i = .finished r → r = true ∧ s.loaded = true) ∧
  (∀ i, s.pcs i = .holding ∨ s.pcs i = .loading → s.lock = some i) ∧
  (∀ i, s.pcs i = .loading → s.loaded = false)

/-! ## Lemmas about the flush batcher -/

theorem lookupTime_append (m1 m2 : List (String × Int)) (k : String) :
    lookupTime (m1 ++ m2) k = (lookupTime m1 k).orElse (fun _ => lookupTime m2 k) := by
  induction m1 with
  | nil => simp [lookupTime]
  | cons a m ih =>
    by_cases h : a.1 = k <;> simp [lookupTime, h, ih]

theorem lookupTime_eq_none (m : List (String × Int)) (k : String)
    (h : ∀ x ∈ m, x.1 ≠ k) : lookupTime m k = none := by
  induction m with
  | nil => rfl
  | cons a m ih =>
    have ha := h a (List.mem_cons_self a m)
    simp [lookupTime, ha, ih (fun x hx => h x (List.mem_cons_of_mem a hx))]

theorem lookupTime_replace_ne (m : List (String × Int)) (k k0 : String) (v : Int)
    (h : k0 ≠ k) :
    lookupTime (m.map (fun kv => if kv.1 = k then (k, v) else kv)) k0 =
      lookupTime m k0 := by
  induction m with
  | nil => rfl
  | cons a m ih =>
    by_cases hak : a.1 = k
    · have h1 : k ≠ k0 := fun hc => h hc.symm
      have h2 : ¬ (a.1 = k0) := fun hc => h (by rw [← hc, hak])
      simp [lookupTime, hak, h1, h2, ih]
    · by_cases hk0a : a.1 = k0
      · simp only [List.map_cons, if_neg hak]
        simp [lookupTime, hk0a]
      · simp only [List.map_cons, if_neg hak]
        simp [lookupTime, hk0a, ih]

theorem lookupTime_replace_self (m : List (String × Int)) (k : String) (v : Int)
    (h : m.any (fun kv => kv.1 == k) = true) :
    lookupTime (m.map (fun kv => if kv.1 = k then (k, v) else kv)) k = some v := by
  induction m with
  | nil => simp at h
  | cons a m ih =>
    by_cases hak : a.1 = k
    · simp [lookupTime, hak]
    · have hne : (a.1 == k) = false := by simp [hak]
      simp only [List.any_cons, hne, Bool.false_or] at h
      simp [lookupTime, hak, ih h]

theorem lookupTime_setEntry (m : List (String × Int)) (k k0 : String) (v : Int) :
    lookupTime (setEntry m k v) k0 = if k0 = k then some v else lookupTime m k0 := by
  unfold setEntry
  by_cases hany : m.any (fun kv => kv.1 == k) = true
  · rw [if_pos hany]
    by_cases hk0 : k0 = k
    · rw [if_pos hk0, hk0, lookupTime_replace_self m k v hany]
    · rw [if_neg hk0, lookupTime_replace_ne m k k0 v hk0]
  · rw [if_neg hany, lookupTime_append]
    have hnone : lookupTime m k = none := by
      apply lookupTime_eq_none
      intro x hx hc
      exact hany (List.any_eq_true.mpr ⟨x, hx, by simp [hc]⟩)
    by_cases hk0 : k0 = k
    · rw [if_pos hk0, hk0, hnone]
      simp [lookupTime]
    · rw [if_neg hk0]
      cases hl : lookupTime m k0 with
      | some x => simp [Option.orElse]
      | none =>
        have hkk : ¬ k = k0 := fun hc => hk0 hc.symm
        simp [lookupTime, hkk]

theorem flush_collections_cons (ok : String → Bool) (now : Int) (a : String)
    (names : List String) (st : FlusherState) :
    flush_collections ok now (a :: names) st =
      flush_collections ok now names
        (if ok a then
          { st with
            last_flush_time := setEntry st.last_flush_time a now
            collections_to_flush := st.collections_to_flush.filter (fun c => c != a) }
        else st) := rfl

theorem flush_collections_last_change (ok : String → Bool) (now : Int)
    (names : List String) (st : FlusherState) :
    (flush_collections ok now names st).last_change_time = st.last_change_time := by
  induction names generalizing st with
  | nil => rfl
  | cons a names ih =>
    rw [flush_collections_cons]
    by_cases hok : ok a <;> simp [hok, ih]

theorem mem_flush_collections (ok : String → Bool) (now : Int)
    (names : List String) (st : FlusherState) (c : String) :
    c ∈ (flush_collections ok now names st).collections_to_flush ↔
      c ∈ st.collections_to_flush ∧ ¬(c ∈ names ∧ ok c = true) := by
  induction names generalizing st with
  | nil => simp [flush_collections]
  | cons a names ih =>
    rw [flush_collections_cons]
    by_cases hok : ok a
    · rw [if_pos hok, ih]
      by_cases hca : c = a
      · subst hca
        simp [List.mem_filter, hok]
      · simp only [List.mem_filter, hca, bne_iff_ne, ne_eq, not_false_eq_true,
          and_true, List.mem_cons, false_or]
    · rw [if_neg hok, ih]
      by_cases hca : c = a
      · subst hca
        simp [hok]
      · simp only [List.mem_cons, hca, false_or]

theorem lookup_flush_collections (ok : String → Bool) (now : Int)
    (names : List String) (st : FlusherState) (c : String) :
    lookupTime (flush_collections ok now names st).last_flush_time c =
      if c ∈ names ∧ ok c = true then some now
      else lookupTime st.last_flush_time c := by
  induction names generalizing st with
  | nil => simp [flush_collections]
  | cons a names ih =>
    rw [flush_collections_cons]
    by_cases hok : ok a
    · rw [if_pos hok, ih]
      by_cases hca : c = a
      · subst hca
        simp [lookupTime_setEntry, hok]
      · by_cases hcn : c ∈ names ∧ ok c = true
        · simp [hcn]
        · simp only [if_neg hcn]
          rw [if_neg (by simpa [hca] using hcn)]
          simp [lookupTime_setEntry, hca]
    · rw [if_neg hok, ih]
      by_cases hca : c = a
      · subst hca
        simp [hok]
      · by_cases hcn : c ∈ names ∧ ok c = true <;>
          simp [hcn, hca]

/-- C4: on each poll of the flush batcher's background loop, a dirty
collection is flushed iff its time since last change reached
delay_seconds or its time since last flush reached max_wait_seconds; on
flush success the dirty mark is cleared and last_flush_time is set to
now; on flush failure the dirty mark stays set (so the collection is
examined again on the next poll); ineligible dirty collections are left
dirty untouched. -/
theorem check_and_flush_correct (flushOk : String → Bool)
    (now delay maxWait : Int) (st : FlusherState) (c : String)
    (hc : c ∈ st.collections_to_flush) :
    (c ∈ st.collections_to_flush.filter (shouldFlush st now delay maxWait) ↔
      delay ≤ now - ((lookupTime st.last_change_time c).getD now) ∨
      maxWait ≤ now - ((lookupTime st.last_flush_time c).getD datetimeMin)) ∧
    (shouldFlush st now delay maxWait c = true → flushOk c = true →
      c ∉ (check_and_flush flushOk now delay maxWait st).collections_to_flush ∧
      lookupTime (check_and_flush flushOk now delay maxWait st).last_flush_time c =
        some now) ∧
    (shouldFlush st now delay maxWait c = true → flushOk c = false →
      c ∈ (check_and_flush flushOk now delay maxWait st).collections_to_flush ∧
      lookupTime (check_and_flush flushOk now delay maxWait st).last_flush_time c =
        lookupTime st.last_flush_time c) ∧
    (shouldFlush st now delay maxWait c = false →
      c ∉ st.collections_to_flush.filter (shouldFlush st now delay maxWait) ∧
      c ∈ (check_and_flush flushOk now delay maxWait st).collections_to_flush) := by
  refine ⟨?_, ?_, ?_, ?_⟩
  · simp [List.mem_filter, hc, shouldFlush]
  · intro helig hok
    unfold check_and_flush
    constructor
    · rw [mem_flush_collections]
      simp [List.mem_filter, hc, helig, hok]
    · rw [lookup_flush_collections]
      simp [List.mem_filter, hc, helig, hok]
  · intro helig hok
    unfold check_and_flush
    constructor
    · rw [mem_flush_collections]
      simp [hc, hok]
    · rw [lookup_flush_collections]
      simp [hok]
  · intro helig
    constructor
    · simp [List.mem_filter, helig]
    · unfold check_and_flush
      rw [mem_flush_collections]
      simp [hc, List.mem_filter, helig]

/-- Witness for check_and_flush_correct at a concrete poll: collA was
changed 1 second ago with delay 1s, flush succeeds, the mark clears. -/
theorem check_and_flush_correct_witness :
    "collA" ∈ FlusherState.collections_to_flush ⟨["collA"], [("collA", 100)], []⟩ ∧
    "collA" ∉ (check_and_flush (fun _ => true) 101 1 5
      ⟨["collA"], [("collA", 100)], []⟩).collections_to_flush := by
  have hc : "collA" ∈ FlusherState.collections_to_flush
      ⟨["collA"], [("collA", 100)], []⟩ := by decide
  have h := check_and_flush_correct (fun _ => true) 101 1 5
    ⟨["collA"], [("collA", 100)], []⟩ "collA" hc
  exact ⟨hc, (h.2.1 (by decide) rfl).1⟩

/-- C9: a dirty collection with no recorded last_flush_time in this
process is flushed on the very first poll after mark_for_flush,
whatever its last-change time: the missing entry defaults to
datetime.min, so the max-wait ceiling holds for any nonnegative clock
reading and any max_wait_seconds at most the 62135596800-second span
between datetime.min and the epoch. -/
theorem first_flush_not_debounced (flushOk : String → Bool)
    (now delay maxWait : Int) (st : FlusherState) (c : String)
    (hc : c ∈ st.collections_to_flush)
    (hnone : lookupTime st.last_flush_time c = none)
    (hnow : 0 ≤ now) (hmax : maxWait ≤ 62135596800) :
    shouldFlush st now delay maxWait c = true ∧
    c ∈ st.collections_to_flush.filter (shouldFlush st now delay maxWait) ∧
    (flushOk c = true →
      c ∉ (check_and_flush flushOk now delay maxWait st).collections_to_flush) := by
  have hsf : shouldFlush st now delay maxWait c = true := by
    simp only [shouldFlush, hnone, Option.getD_none, Bool.or_eq_true, decide_eq_true_eq]
    right
    unfold datetimeMin
    omega
  refine ⟨hsf, by simp [List.mem_filter, hc, hsf], ?_⟩
  intro hok
  unfold check_and_flush
  rw [mem_flush_collections]
  simp [List.mem_filter, hc, hsf, hok]

/-- Witness for first_flush_not_debounced: the collection was changed at
the very poll instant (time since change 0 < delay), has no recorded
flush, and still flushes on this poll. -/
theorem first_flush_not_debounced_witness :
    "collB" ∈ FlusherState.collections_to_flush ⟨["collB"], [("collB", 1000)], []⟩ ∧
    shouldFlush ⟨["collB"], [("collB", 1000)], []⟩ 1000 1 5 "collB" = true := by
  have h := first_flush_not_debounced (fun _ => true) 1000 1 5
    ⟨["collB"], [("collB", 1000)], []⟩ "collB" (by decide) (by decide)
    (by decide) (by decide)
  exact ⟨by decide, h.1⟩

/-! ## Lemmas about the content-name existence check -/

theorem get_existing_one (pg : PGState) (bot n : String) :
    get_existing_content_names pg bot [n] = get_existing_single pg bot n := rfl

theorem get_existing_two_or_more (pg : PGState) (bot a b : String)
    (rest : List String) :
    get_existing_content_names pg bot (a :: b :: rest) =
      get_existing_multi pg bot (a :: b :: rest) := rfl

theorem mem_altLookup_mono (pg : PGState) (bot : String) (acc : List String)
    (m x : String) (hx : x ∈ acc) : x ∈ altLookup pg bot acc m := by
  unfold altLookup
  split
  · split
    · exact List.mem_append_left _ hx
    · exact hx
  · exact hx

theorem mem_foldl_altLookup_mono (pg : PGState) (bot : String)
    (l : List String) (acc : List String) (x : String) (hx : x ∈ acc) :
    x ∈ l.foldl (altLookup pg bot) acc := by
  induction l generalizing acc with
  | nil => exact hx
  | cons a l ih =>
    rw [List.foldl_cons]
    exact ih _ (mem_altLookup_mono pg bot acc a x hx)

theorem swap_mem_foldl_altLookup (pg : PGState) (bot : String)
    (l : List String) (acc : List String) (n : String)
    (hn : n ∈ l) (hurl : isUrlName n = true)
    (hhit : pgHasDoc pg bot (swapScheme n) = true) :
    swapScheme n ∈ l.foldl (altLookup pg bot) acc := by
  induction l generalizing acc with
  | nil => cases hn
  | cons a l ih =>
    rw [List.foldl_cons]
    rcases List.mem_cons.mp hn with rfl | hmem
    · apply mem_foldl_altLookup_mono
      unfold altLookup
      rw [hurl, if_pos rfl]
      by_cases hin : swapScheme n ∈ acc
      · rw [if_neg]
        · exact hin
        · simp [hin]
      · rw [if_pos]
        · exact List.mem_append_right _ (List.mem_singleton.mpr rfl)
        · simp [hhit, hin]
    · exact ih _ hmem

/-- C10: the existence check shared by the insert pre-check and the delete
resolution step treats content names differing only in http vs https as
the same document: a URL-shaped name that misses verbatim is re-queried
with the opposite scheme and, on a hit, the stored name is returned in
its place — in the single-name branch the result is exactly the stored
twin; in the multi-name branch (nothing found verbatim) the stored twin
is among the resolved names; and the insert pre-check consequently skips
a request whose name has a stored scheme-twin. -/
theorem scheme_twin_resolution (pg : PGState) (bot n : String)
    (hmiss : pgHasDoc pg bot n = false)
    (hurl : isUrlName n = true)
    (hhit : pgHasDoc pg bot (swapScheme n) = true) :
    get_existing_content_names pg bot [n] = [swapScheme n] ∧
    (∀ a b rest, n ∈ a :: b :: rest →
      (∀ d ∈ pg.docs, d.chat_bot_id = bot → d.content_name ∉ a :: b :: rest) →
      swapScheme n ∈ get_existing_content_names pg bot (a :: b :: rest)) ∧
    (∀ env account md chunks mv dirty,
      insert_document env ⟨account, bot, n, md, chunks⟩ ⟨pg, mv, dirty⟩ =
        (⟨pg, mv, dirty⟩, .skipped)) := by
  have hsingle : get_existing_content_names pg bot [n] = [swapScheme n] := by
    rw [get_existing_one]
    unfold get_existing_single
    rw [hmiss]
    simp only [Bool.false_eq_true, if_false, hurl, if_true, hhit]
  refine ⟨hsingle, ?_, ?_⟩
  · intro a b rest hn hnone
    rw [get_existing_two_or_more]
    unfold get_existing_multi
    have hfound : (pg.docs.filter (fun d =>
        d.chat_bot_id == bot && (a :: b :: rest).contains d.content_name)) = [] := by
      rw [List.filter_eq_nil_iff]
      intro d hd
      by_cases hb : d.chat_bot_id = bot
      · have := hnone d hd hb
        simp [hb, this]
      · simp [hb]
    rw [hfound]
    simp only [List.map_nil]
    apply swap_mem_foldl_altLookup pg bot _ _ n _ hurl hhit
    rw [List.filter_eq_self.mpr]
    · exact (List.mem_dedup).mpr hn
    · intro x hx
      simp
  · intro env account md chunks mv dirty
    unfold insert_document
    simp only [hsingle]
    rw [if_pos (by simp)]

/-- Witness for scheme_twin_resolution: the store holds https://x under
bot1; asking for http://x resolves to the stored https twin. -/
theorem scheme_twin_resolution_witness :
    pgHasDoc ⟨[⟨1, "bot1", "https://x", 0, []⟩], [], 2⟩ "bot1" "http://x" = false ∧
    get_existing_content_names ⟨[⟨1, "bot1", "https://x", 0, []⟩], [], 2⟩ "bot1"
      ["http://x"] = [swapScheme "http://x"] := by
  have h := scheme_twin_resolution ⟨[⟨1, "bot1", "https://x", 0, []⟩], [], 2⟩
    "bot1" "http://x" (by decide) (by decide) (by decide)
  exact ⟨by decide, h.1⟩

/-! ## Lemmas about the insert saga -/

theorem retryFrom_eq_none_iff (f : Nat → Option α) (i fuel : Nat) :
    retryFrom f i fuel = none ↔ ∀ j, i ≤ j → j ≤ i + fuel → f j = none := by
  induction fuel generalizing i with
  | zero =>
    constructor
    · intro h j hij hji
      have : j = i := le_antisymm (by simpa using hji) hij
      simpa [this] using h
    · intro h
      exact h i le_rfl (by simp)
  | succ fuel ih =>
    constructor
    · intro h j hij hji
      unfold retryFrom at h
      cases hfi : f i with
      | some v => rw [hfi] at h; cases h
      | none =>
        rw [hfi] at h
        rcases eq_or_lt_of_le hij with rfl | hlt
        · exact hfi
        · exact (ih (i + 1)).mp h j hlt (by omega)
    · intro h
      unfold retryFrom
      rw [h i le_rfl (by omega)]
      exact (ih (i + 1)).mpr (fun j hij hji => h j (by omega) (by omega))

theorem retryCall_eq_none_iff (f : Nat → Option α) (maxRetries : Nat) :
    retryCall f maxRetries = none ↔ ∀ j, j ≤ maxRetries → f j = none := by
  unfold retryCall
  rw [retryFrom_eq_none_iff]
  constructor
  · intro h j hj
    exact h j (Nat.zero_le j) (by omega)
  · intro h j _ hj
    exact h j (by omega)

theorem pgHasDoc_of_precheck_empty (pg : PGState) (bot n : String)
    (h : get_existing_content_names pg bot [n] = []) :
    pgHasDoc pg bot n = false := by
  rw [get_existing_one] at h
  unfold get_existing_single at h
  by_cases hd : pgHasDoc pg bot n = true
  · rw [if_pos hd] at h
    cases h
  · simpa using hd

/-- The documents row just inserted for (bot, name) disappears again under
the compensating delete, and no other (bot, name) row can remain when
none existed before the insert. -/
theorem pgHasDoc_after_compensation (pg : PGState) (bot name : String)
    (md : Metadata) (cs : List ChunkIn)
    (h : pgHasDoc pg bot name = false) :
    pgHasDoc
      (pg_delete_document
        { docs := pg.docs ++ [⟨pg.next_doc_id, bot, name, cs.length, md⟩]
          chunks := pg.chunks ++ cs.map (fun c => ⟨pg.next_doc_id, bot, c.1, c.2⟩)
          next_doc_id := pg.next_doc_id + 1 }
        bot pg.next_doc_id) bot name = false := by
  simp only [pgHasDoc, pg_delete_document, List.any_eq_false, List.mem_filter,
    List.mem_append, List.mem_singleton] at h ⊢
  rintro d ⟨hmem | rfl, hkeep⟩
  · exact h d hmem
  · simp at hkeep

/-- Anatomy of a successful insert_document call: the duplicate pre-check
came back empty, the relational transaction inserted the row under the
next doc id, the embedding retry succeeded, and the final world carries
both stores' additions plus the dirty mark. -/
theorem insert_document_success_shape (env : InsertEnv) (req : InsertRequest)
    (st st' : World) (docId : Nat)
    (h : insert_document env req st = (st', .success docId)) :
    get_existing_content_names st.pg req.chat_bot_id [req.content_name] = [] ∧
    docId = st.pg.next_doc_id ∧
    ∃ embeddings, retryCall env.embedAttempt 3 = some embeddings ∧
      st' =
        { pg :=
            { docs := st.pg.docs ++
                [⟨docId, req.chat_bot_id, req.content_name, req.chunks.length,
                  req.metadata⟩]
              chunks := st.pg.chunks ++
                req.chunks.map (fun c => ⟨docId, req.chat_bot_id, c.1, c.2⟩)
              next_doc_id := docId + 1 }
          milvus := milvus_insert_vectors st.milvus req.account_name
            req.chat_bot_id (generate_partition_name req.chat_bot_id) docId
            req.content_name (req.chunks.zip embeddings)
            (filter_milvus_metadata MILVUS_METADATA_FIELDS req.metadata)
          dirty := markDirty st.dirty (collectionName req.account_name) } := by
  unfold insert_document at h
  split at h
  · simp at h
  · rename_i hpre
    rw [not_not] at hpre
    unfold insert_document_with_chunks_transaction at h
    rw [if_neg (by simp [pgHasDoc_of_precheck_empty st.pg req.chat_bot_id
      req.content_name hpre])] at h
    unfold insert_document_after_txn at h
    refine ⟨hpre, ?_⟩
    cases hembed : retryCall env.embedAttempt 3 with
    | none => rw [hembed] at h; simp at h
    | some embeddings =>
      rw [hembed] at h
      cases hmil : retryCall
          (fun i => if env.milvusAttempt i then some () else none) 3 with
      | none => rw [hmil] at h; simp at h
      | some u =>
        rw [hmil] at h
        simp only [Prod.mk.injEq, InsertOutcome.success.injEq] at h
        obtain ⟨hst, hid⟩ := h
        subst hid
        exact ⟨rfl, embeddings, rfl, hst.symm⟩

/-- C1: inserting a fresh (botId, contentName): if embedding generation
fails permanently (every attempt of the retry wrapper fails), or if the
vector insert fails permanently after relational commit and successful
embedding, then the compensating delete of the just-inserted documents
row is issued (the final relational state is exactly the post-transaction
state with that row cascade-deleted), a terminal error is reported, the
row is absent afterward, and the vector store is untouched. -/
theorem insert_compensation_on_failure (env : InsertEnv) (req : InsertRequest)
    (st : World)
    (hpre : get_existing_content_names st.pg req.chat_bot_id [req.content_name] = []) :
    (retryCall env.embedAttempt 3 = none ↔ ∀ j, j ≤ 3 → env.embedAttempt j = none) ∧
    (retryCall env.embedAttempt 3 = none →
      insert_document env req st =
        ({ st with
            pg := pg_delete_document
                (insertedPG st.pg req.chat_bot_id req.content_name
                  req.metadata req.chunks)
                req.chat_bot_id st.pg.next_doc_id },
         .embeddingError) ∧
      pgHasDoc (insert_document env req st).1.pg req.chat_bot_id
        req.content_name = false ∧
      (insert_document env req st).1.milvus = st.milvus) ∧
    (∀ embeddings, retryCall env.embedAttempt 3 = some embeddings →
      retryCall (fun i => if env.milvusAttempt i then some () else none) 3 = none →
      insert_document env req st =
        ({ st with
            pg := pg_delete_document
                (insertedPG st.pg req.chat_bot_id req.content_name
                  req.metadata req.chunks)
                req.chat_bot_id st.pg.next_doc_id },
         .milvusError) ∧
      pgHasDoc (insert_document env req st).1.pg req.chat_bot_id
        req.content_name = false ∧
      (insert_document env req st).1.milvus = st.milvus) := by
  have hnodup : pgHasDoc st.pg req.chat_bot_id req.content_name = false :=
    pgHasDoc_of_precheck_empty st.pg req.chat_bot_id req.content_name hpre
  have hstep : insert_document env req st =
      insert_document_after_txn env req
        { st with
          pg := insertedPG st.pg req.chat_bot_id req.content_name
              req.metadata req.chunks }
        (some st.pg.next_doc_id) := by
    unfold insert_document
    rw [if_neg (by simp [hpre])]
    unfold insert_document_with_chunks_transaction
    rw [if_neg (by simp [hnodup])]
    rfl
  refine ⟨retryCall_eq_none_iff env.embedAttempt 3, ?_, ?_⟩
  · intro hembed
    have heq : insert_document env req st =
        ({ st with
            pg := pg_delete_document
                (insertedPG st.pg req.chat_bot_id req.content_name
                  req.metadata req.chunks)
                req.chat_bot_id st.pg.next_doc_id },
         .embeddingError) := by
      rw [hstep]
      unfold insert_document_after_txn
      rw [hembed]
    refine ⟨heq, ?_, ?_⟩
    · rw [heq]
      exact pgHasDoc_after_compensation st.pg req.chat_bot_id req.content_name
        req.metadata req.chunks hnodup
    · rw [heq]
  · intro embeddings hembed hmil
    have heq : insert_document env req st =
        ({ st with
            pg := pg_delete_document
                (insertedPG st.pg req.chat_bot_id req.content_name
                  req.metadata req.chunks)
                req.chat_bot_id st.pg.next_doc_id },
         .milvusError) := by
      rw [hstep]
      unfold insert_document_after_txn
      rw [hembed, hmil]
    refine ⟨heq, ?_, ?_⟩
    · rw [heq]
      exact pgHasDoc_after_compensation st.pg req.chat_bot_id req.content_name
        req.metadata req.chunks hnodup
    · rw [heq]

/-- Witness for insert_compensation_on_failure: fresh store, every
embedding attempt fails; the call reports the embedding error and the
documents row is gone. -/
theorem insert_compensation_on_failure_witness :
    (insert_document ⟨fun _ => none, fun _ => true⟩
        ⟨"acme", "b1", "doc1", [], [(0, "t")]⟩ ⟨⟨[], [], 1⟩, [], []⟩).2 =
      .embeddingError ∧
    pgHasDoc (insert_document ⟨fun _ => none, fun _ => true⟩
        ⟨"acme", "b1", "doc1", [], [(0, "t")]⟩ ⟨⟨[], [], 1⟩, [], []⟩).1.pg
      "b1" "doc1" = false := by
  have h := insert_compensation_on_failure ⟨fun _ => none, fun _ => true⟩
    ⟨"acme", "b1", "doc1", [], [(0, "t")]⟩ ⟨⟨[], [], 1⟩, [], []⟩ (by decide)
  have h2 := h.2.1 rfl
  exact ⟨by rw [h2.1], h2.2.1⟩

/-- C2: inserting the same (botId, contentName) twice (the first call
succeeding) leaves the first call's state with exactly one matching
documents row, and the second call — whatever its environment — returns a
skipped result and mutates neither store; independently, the branch of
the API that receives doc_id None from the relational layer converts it
to a skipped result without any further mutation. -/
theorem duplicate_insert_skipped (env1 env2 : InsertEnv) (req : InsertRequest)
    (st0 st1 : World) (docId : Nat)
    (h1 : insert_document env1 req st0 = (st1, .success docId)) :
    insert_document env2 req st1 = (st1, .skipped) ∧
    (st1.pg.docs.filter (fun d => d.chat_bot_id == req.chat_bot_id &&
        d.content_name == req.content_name)).length = 1 ∧
    (∀ env0 req0 st0w, insert_document_after_txn env0 req0 st0w none =
      (st0w, .skipped)) := by
  obtain ⟨hpre, hid, embeddings, hembed, hst1⟩ :=
    insert_document_success_shape env1 req st0 st1 docId h1
  have hnodup : pgHasDoc st0.pg req.chat_bot_id req.content_name = false :=
    pgHasDoc_of_precheck_empty st0.pg req.chat_bot_id req.content_name hpre
  have hhas : pgHasDoc st1.pg req.chat_bot_id req.content_name = true := by
    rw [hst1]
    simp [pgHasDoc, List.any_eq_true]
  refine ⟨?_, ?_, fun _ _ _ => rfl⟩
  · unfold insert_document
    rw [if_pos]
    rw [get_existing_one]
    unfold get_existing_single
    rw [hhas]
    simp
  · rw [hst1]
    simp only [List.filter_append]
    rw [List.length_append]
    have h0 : (st0.pg.docs.filter (fun d => d.chat_bot_id == req.chat_bot_id &&
        d.content_name == req.content_name)).length = 0 := by
      rw [List.length_eq_zero, List.filter_eq_nil_iff]
      intro d hd
      simp only [pgHasDoc, List.any_eq_false] at hnodup
      exact fun hc => hnodup d hd (by simpa using hc)
    rw [h0]
    simp

/-- Witness for duplicate_insert_skipped: a concrete successful insert
followed by an identical re-submission that is skipped. -/
theorem duplicate_insert_skipped_witness :
    insert_document ⟨fun _ => some [5], fun _ => true⟩
        ⟨"acme", "b1", "doc1", [], [(0, "t")]⟩ ⟨⟨[], [], 1⟩, [], []⟩ =
      (⟨⟨[⟨1, "b1", "doc1", 1, []⟩], [⟨1, "b1", 0, "t"⟩], 2⟩,
        [⟨"collection_acme", "bot_b1", 1, "b1", "doc1", 0, 5, "t", []⟩],
        ["collection_acme"]⟩, .success 1) ∧
    insert_document ⟨fun _ => none, fun _ => false⟩
        ⟨"acme", "b1", "doc1", [], [(0, "t")]⟩
        ⟨⟨[⟨1, "b1", "doc1", 1, []⟩], [⟨1, "b1", 0, "t"⟩], 2⟩,
          [⟨"collection_acme", "bot_b1", 1, "b1", "doc1", 0, 5, "t", []⟩],
          ["collection_acme"]⟩ =
      (⟨⟨[⟨1, "b1", "doc1", 1, []⟩], [⟨1, "b1", 0, "t"⟩], 2⟩,
        [⟨"collection_acme", "bot_b1", 1, "b1", "doc1", 0, 5, "t", []⟩],
        ["collection_acme"]⟩, .skipped) := by
  have h1 : insert_document ⟨fun _ => some [5], fun _ => true⟩
      ⟨"acme", "b1", "doc1", [], [(0, "t")]⟩ ⟨⟨[], [], 1⟩, [], []⟩ =
      (⟨⟨[⟨1, "b1", "doc1", 1, []⟩], [⟨1, "b1", 0, "t"⟩], 2⟩,
        [⟨"collection_acme", "bot_b1", 1, "b1", "doc1", 0, 5, "t", []⟩],
        ["collection_acme"]⟩, .success 1) := by decide
  exact ⟨h1, (duplicate_insert_skipped ⟨fun _ => some [5], fun _ => true⟩
    ⟨fun _ => none, fun _ => false⟩ _ _ _ _ h1).1⟩

/-- C8 counterexample: with metadata containing an allow-listed key whose
value is null, the vector entity does NOT carry exactly the pairs whose
key is on the allow-list — filter_milvus_metadata also drops pairs whose
value is None, so the entity metadata is empty while the key-only
restriction of the request metadata is not. -/
theorem milvus_metadata_keys_only_counterexample :
    ((insert_document ⟨fun _ => some [7], fun _ => true⟩
        ⟨"acme", "b1", "doc1",
          [("content_type", JVal.vnull), ("author", JVal.vstr "x")],
          [(0, "t")]⟩
        ⟨⟨[], [], 1⟩, [], []⟩).1.milvus.map VecEntity.metadata = [[]]) ∧
    ([("content_type", JVal.vnull), ("author", JVal.vstr "x")].filter
        (fun kv => MILVUS_METADATA_FIELDS.contains kv.1) =
      [("content_type", JVal.vnull)]) ∧
    ([] : Metadata) ≠ [("content_type", JVal.vnull)] := by
  refine ⟨by decide, by decide, by decide⟩

/-- C8 amended: on a successful insert, every vector entity added by the
call carries exactly the metadata pairs whose key is on the configured
allow-list AND whose value is not null, while the relational row stores
the full request metadata; in particular, for allow-list
["content_type"] and metadata like Scenario A, only the content_type
pair is mirrored. -/
theorem milvus_metadata_allowlist (env : InsertEnv) (req : InsertRequest)
    (st st' : World) (docId : Nat)
    (h : insert_document env req st = (st', .success docId)) :
    (∀ e ∈ st'.milvus, e ∉ st.milvus →
      e.metadata = req.metadata.filter
        (fun kv => MILVUS_METADATA_FIELDS.contains kv.1 && kv.2 != JVal.vnull)) ∧
    (∃ d ∈ st'.pg.docs, d.chat_bot_id = req.chat_bot_id ∧
      d.content_name = req.content_name ∧ d.metadata = req.metadata) ∧
    (∀ fields md, filter_milvus_metadata fields md =
      md.filter (fun kv => fields.contains kv.1 && kv.2 != JVal.vnull)) := by
  obtain ⟨hpre, hid, embeddings, hembed, hst1⟩ :=
    insert_document_success_shape env req st st' docId h
  refine ⟨?_, ?_, fun _ _ => rfl⟩
  · intro e hmem hnew
    rw [hst1] at hmem
    simp only [milvus_insert_vectors, List.mem_append] at hmem
    rcases hmem with hold | hmapped
    · exact absurd hold hnew
    · obtain ⟨c, _, rfl⟩ := List.mem_map.mp hmapped
      rfl
  · rw [hst1]
    refine ⟨⟨docId, req.chat_bot_id, req.content_name, req.chunks.length,
      req.metadata⟩, ?_, rfl, rfl, rfl⟩
    simp

/-- Witness for milvus_metadata_allowlist: Scenario A shaped insert with a
non-null allow-listed field and a non-listed author field. -/
theorem milvus_metadata_allowlist_witness :
    insert_document ⟨fun _ => some [7], fun _ => true⟩
        ⟨"acme", "b1", "doc1",
          [("content_type", JVal.vstr "pdf"), ("author", JVal.vstr "x")],
          [(0, "t")]⟩
        ⟨⟨[], [], 1⟩, [], []⟩ =
      (⟨⟨[⟨1, "b1", "doc1", 1,
            [("content_type", JVal.vstr "pdf"), ("author", JVal.vstr "x")]⟩],
          [⟨1, "b1", 0, "t"⟩], 2⟩,
        [⟨"collection_acme", "bot_b1", 1, "b1", "doc1", 0, 7, "t",
          [("content_type", JVal.vstr "pdf")]⟩],
        ["collection_acme"]⟩, .success 1) ∧
    (∀ e ∈ [VecEntity.mk "collection_acme" "bot_b1" 1 "b1" "doc1" 0 7 "t"
        [("content_type", JVal.vstr "pdf")]], e ∉ ([] : List VecEntity) →
      e.metadata = [("content_type", JVal.vstr "pdf"), ("author", JVal.vstr "x")].filter
        (fun kv => MILVUS_METADATA_FIELDS.contains kv.1 && kv.2 != JVal.vnull)) := by
  have h1 : insert_document ⟨fun _ => some [7], fun _ => true⟩
      ⟨"acme", "b1", "doc1",
        [("content_type", JVal.vstr "pdf"), ("author", JVal.vstr "x")],
        [(0, "t")]⟩
      ⟨⟨[], [], 1⟩, [], []⟩ =
      (⟨⟨[⟨1, "b1", "doc1", 1,
            [("content_type", JVal.vstr "pdf"), ("author", JVal.vstr "x")]⟩],
          [⟨1, "b1", 0, "t"⟩], 2⟩,
        [⟨"collection_acme", "bot_b1", 1, "b1", "doc1", 0, 7, "t",
          [("content_type", JVal.vstr "pdf")]⟩],
        ["collection_acme"]⟩, .success 1) := by decide
  refine ⟨h1, ?_⟩
  have h := milvus_metadata_allowlist ⟨fun _ => some [7], fun _ => true⟩
    ⟨"acme", "b1", "doc1",
      [("content_type", JVal.vstr "pdf"), ("author", JVal.vstr "x")],
      [(0, "t")]⟩ _ _ _ h1
  exact h.1

/-- C6 counterexample: deleting one content name from an empty relational
store returns the early "no documents found" response whose status is
"success" (with the name in the failure list), not "failed" as the claim
states. -/
theorem delete_status_counterexample :
    (delete_document_api ⟨true, true⟩ ⟨"acme", "b1", ["a"]⟩
        ⟨⟨[], [], 1⟩, [], []⟩).2 =
      .ok ⟨"success", 1, 0, 1, [], ["a"], 0, 0, 0⟩ ∧
    "success" ≠ "failed" := ⟨by decide, by decide⟩

/-- C6 amended: the delete response status is "success" when every
requested name resolves and is deleted, and also (early return) when no
requested name resolves at all — in that case every requested name is in
the per-name failure list; it is "partial_success" when some but not all
resolve; the "failed" status is unreachable on any 200 response (store
failures surface as HTTP 500 errors instead). -/
theorem delete_status_characterisation (env : DeleteEnv) (req : DeleteRequest)
    (st : World) :
    (get_existing_content_names st.pg req.chat_bot_id req.content_name = [] →
      delete_document_api env req st = (st, .ok
        { status := "success"
          total_requested := req.content_name.length
          total_success := 0
          total_failed := req.content_name.length
          successful_content_names := []
          failed_content_names := req.content_name
          deleted_documents := 0
          deleted_chunks := 0
          deleted_vectors := 0 })) ∧
    (get_existing_content_names st.pg req.chat_bot_id req.content_name ≠ [] →
      env.milvusDeleteOk = true → env.pgDeleteOk = true →
      ∀ resp, (delete_document_api env req st).2 = .ok resp →
        resp.successful_content_names =
          get_existing_content_names st.pg req.chat_bot_id req.content_name ∧
        resp.status =
          (if (get_existing_content_names st.pg req.chat_bot_id
              req.content_name).length = req.content_name.length
            then "success" else "partial_success")) ∧
    (∀ resp, (delete_document_api env req st).2 = .ok resp →
      resp.status ≠ "failed") := by
  refine ⟨?_, ?_, ?_⟩
  · intro hempty
    unfold delete_document_api
    rw [hempty]
    rfl
  · intro hne hmil hpg resp hresp
    unfold delete_document_api at hresp
    rw [if_neg (by simp [List.isEmpty_iff, hne])] at hresp
    rw [hmil] at hresp
    simp only [Bool.not_true, Bool.false_eq_true, if_false] at hresp
    rw [hpg] at hresp
    simp only [Bool.not_true, Bool.false_eq_true, if_false] at hresp
    simp only [DeleteOutcome.ok.injEq] at hresp
    subst hresp
    refine ⟨rfl, ?_⟩
    by_cases hlen : (get_existing_content_names st.pg req.chat_bot_id
        req.content_name).length = req.content_name.length
    · simp [hlen]
    · rw [if_neg hlen, if_neg hlen,
        if_pos (List.length_pos.mpr hne)]
  · intro resp hresp
    unfold delete_document_api at hresp
    by_cases hempty : get_existing_content_names st.pg req.chat_bot_id
        req.content_name = []
    · rw [hempty] at hresp
      simp only [List.isEmpty_nil, if_true, DeleteOutcome.ok.injEq] at hresp
      subst hresp
      show ("success" : String) ≠ "failed"
      decide
    · rw [if_neg (by simp [List.isEmpty_iff, hempty])] at hresp
      by_cases hmil : env.milvusDeleteOk
      · rw [hmil] at hresp
        simp only [Bool.not_true, Bool.false_eq_true, if_false] at hresp
        by_cases hpg : env.pgDeleteOk
        · rw [hpg] at hresp
          simp only [Bool.not_true, Bool.false_eq_true, if_false,
            DeleteOutcome.ok.injEq] at hresp
          subst hresp
          by_cases hlen : (get_existing_content_names st.pg req.chat_bot_id
              req.content_name).length = req.content_name.length
          · simp [hlen]
          · simp only [if_neg hlen,
              if_pos (List.length_pos.mpr hempty)]
            show ("partial_success" : String) ≠ "failed"
            decide
        · rw [eq_false_of_ne_true hpg] at hresp
          simp at hresp
      · rw [eq_false_of_ne_true hmil] at hresp
        simp at hresp

/-- Witness for delete_status_characterisation: a store holding doc "a"
under bot b1, a request for ["a", "b"]; "a" is deleted, "b" fails, the
status is partial_success. -/
theorem delete_status_characterisation_witness :
    (get_existing_content_names
        ⟨[⟨1, "b1", "a", 0, []⟩], [], 2⟩ "b1" ["a", "b"] = ["a"]) ∧
    (delete_document_api ⟨true, true⟩ ⟨"acme", "b1", ["a", "b"]⟩
        ⟨⟨[⟨1, "b1", "a", 0, []⟩], [], 2⟩, [], []⟩).2 =
      .ok ⟨"partial_success", 2, 1, 1, ["a"], ["b"], 1, 0, 0⟩ ∧
    "partial_success" ≠ "failed" := by
  have h := delete_status_characterisation ⟨true, true⟩ ⟨"acme", "b1", ["a", "b"]⟩
    ⟨⟨[⟨1, "b1", "a", 0, []⟩], [], 2⟩, [], []⟩
  have hok : (delete_document_api ⟨true, true⟩ ⟨"acme", "b1", ["a", "b"]⟩
      ⟨⟨[⟨1, "b1", "a", 0, []⟩], [], 2⟩, [], []⟩).2 =
      .ok ⟨"partial_success", 2, 1, 1, ["a"], ["b"], 1, 0, 0⟩ := by decide
  exact ⟨by decide, hok,
    h.2.2 ⟨"partial_success", 2, 1, 1, ["a"], ["b"], 1, 0, 0⟩ hok⟩

/-! ## Lemmas about the startup resynchronisation pass -/

theorem mem_addTracked (r : List (String × String)) (x e : String × String) :
    e ∈ addTracked r x ↔ e ∈ r ∨ e = x := by
  unfold addTracked
  by_cases h : r.contains x
  · rw [if_pos h]
    constructor
    · exact Or.inl
    · rintro (he | rfl)
      · exact he
      · simpa using h
  · rw [if_neg h]
    simp

theorem mem_foldl_addTracked (c : String) (parts : List String)
    (r : List (String × String)) (e : String × String) :
    e ∈ parts.foldl (fun racc p => addTracked racc (c, p)) r ↔
      e ∈ r ∨ ∃ p ∈ parts, e = (c, p) := by
  induction parts generalizing r with
  | nil => simp
  | cons q parts ih =>
    rw [List.foldl_cons, ih, mem_addTracked]
    constructor
    · rintro ((he | rfl) | ⟨p, hp, rfl⟩)
      · exact Or.inl he
      · exact Or.inr ⟨q, List.mem_cons_self q parts, rfl⟩
      · exact Or.inr ⟨p, List.mem_cons_of_mem q hp, rfl⟩
    · rintro (he | ⟨p, hp, rfl⟩)
      · exact Or.inl (Or.inl he)
      · rcases List.mem_cons.mp hp with rfl | hp2
        · exact Or.inl (Or.inr rfl)
        · exact Or.inr ⟨p, hp2, rfl⟩

/-- C7 counterexample: the tracking store holds a stale entry (c, p); the
vector store has no collection c at all, so it reports (c, p) not loaded;
after the resynchronisation pass the stale entry is still tracked — the
pass did not overwrite the tracked belief to match the vector store. -/
theorem sync_retains_stale_counterexample :
    sync_partition_states (fun _ => true) ⟨[]⟩ ["c"] [("c", "p")] = [("c", "p")] ∧
    milvusReportsLoaded (fun _ => true) ⟨[]⟩ ("c", "p") = false ∧
    ¬ (∀ e, e ∈ sync_partition_states (fun _ => true) ⟨[]⟩ ["c"] [("c", "p")] ↔
        milvusReportsLoaded (fun _ => true) ⟨[]⟩ e = true) := by
  refine ⟨by decide, by decide, ?_⟩
  intro hiff
  exact absurd ((hiff ("c", "p")).mp (by decide)) (by decide)

/-- C7 amended: the resynchronisation pass only adds: after the pass a key
is tracked iff it was tracked before or the pass found its collection
among the processed names and concluded (collection exists, has that
non-default partition, collection-level load check positive) that it is
loaded. Entries for keys the vector store does not report as loaded are
retained, not removed, so the tracked set is a superset of — not equal
to — the reported-loaded set. -/
theorem sync_partition_states_adds_only (ok : String → Bool)
    (mv : MilvusCluster) (names : List String)
    (redis : List (String × String)) (e : String × String) :
    e ∈ sync_partition_states ok mv names redis ↔
      e ∈ redis ∨ (e.1 ∈ names ∧ milvusReportsLoaded ok mv e = true) := by
  induction names generalizing redis with
  | nil => simp [sync_partition_states]
  | cons cname rest ih =>
    show e ∈ List.foldl _ _ rest ↔ _
    rw [show List.foldl _ _ rest = sync_partition_states ok mv rest
      (match mv.collections.lookup cname with
        | none => redis
        | some parts =>
          if parts.isEmpty then redis
          else if ok cname then
            parts.foldl (fun racc p => addTracked racc (cname, p)) redis
          else redis) from rfl, ih]
    have hreports : e.1 = cname →
        milvusReportsLoaded ok mv e =
          (match mv.collections.lookup cname with
            | none => false
            | some parts => !parts.isEmpty && ok cname && parts.contains e.2) := by
      intro h1
      unfold milvusReportsLoaded
      rw [h1]
    cases hlk : mv.collections.lookup cname with
    | none =>
      simp only [hlk]
      constructor
      · rintro (he | hrest)
        · exact Or.inl he
        · exact Or.inr ⟨List.mem_cons_of_mem cname hrest.1, hrest.2⟩
      · rintro (he | ⟨hmem, hrep⟩)
        · exact Or.inl he
        · rcases List.mem_cons.mp hmem with h1 | h1
          · rw [hreports h1, hlk] at hrep
            cases hrep
          · exact Or.inr ⟨h1, hrep⟩
    | some parts =>
      by_cases hemp : parts.isEmpty
      · simp only [hlk, hemp, if_true]
        constructor
        · rintro (he | hrest)
          · exact Or.inl he
          · exact Or.inr ⟨List.mem_cons_of_mem cname hrest.1, hrest.2⟩
        · rintro (he | ⟨hmem, hrep⟩)
          · exact Or.inl he
          · rcases List.mem_cons.mp hmem with h1 | h1
            · rw [hreports h1, hlk] at hrep
              simp [hemp] at hrep
            · exact Or.inr ⟨h1, hrep⟩
      · by_cases hok : ok cname
        · simp only [hlk, hemp, if_false, hok, if_true, Bool.false_eq_true]
          rw [mem_foldl_addTracked]
          constructor
          · rintro ((he | ⟨p, hp, rfl⟩) | hrest)
            · exact Or.inl he
            · refine Or.inr ⟨List.mem_cons_self cname rest, ?_⟩
              rw [hreports rfl, hlk]
              simp [hemp, hok, hp]
            · exact Or.inr ⟨List.mem_cons_of_mem cname hrest.1, hrest.2⟩
          · rintro (he | ⟨hmem, hrep⟩)
            · exact Or.inl (Or.inl he)
            · rcases List.mem_cons.mp hmem with h1 | h1
              · rw [hreports h1, hlk] at hrep
                simp only [Bool.and_eq_true] at hrep
                refine Or.inl (Or.inr ⟨e.2, by simpa using hrep.2, ?_⟩)
                rw [← h1]
              · exact Or.inr ⟨h1, hrep⟩
        · simp only [hlk, hemp, if_false, hok, Bool.false_eq_true]
          constructor
          · rintro (he | hrest)
            · exact Or.inl he
            · exact Or.inr ⟨List.mem_cons_of_mem cname hrest.1, hrest.2⟩
          · rintro (he | ⟨hmem, hrep⟩)
            · exact Or.inl he
            · rcases List.mem_cons.mp hmem with h1 | h1
              · rw [hreports h1, hlk] at hrep
                simp [hok] at hrep
              · exact Or.inr ⟨h1, hrep⟩

/-! ## Lemmas about the memory-pressure pass -/

theorem evictSeq_spec (mem : Nat → Int) (thr : Int) :
    ∀ (L : List (String × Int)) (i : Nat), L ≠ [] →
    ∃ j, 1 ≤ j ∧ j ≤ L.length ∧ evictSeq mem thr L i = L.take j ∧
      (∀ t, 1 ≤ t → t < j → ¬ (mem (i + t) < thr)) ∧
      (j < L.length → mem (i + j) < thr) := by
  intro L
  induction L with
  | nil => intro i h; cases h rfl
  | cons e rest ih =>
    intro i _
    by_cases hstop : mem (i + 1) < thr
    · refine ⟨1, le_rfl, by simp, ?_, ?_, ?_⟩
      · unfold evictSeq
        rw [if_pos hstop]
        rfl
      · intro t h1 h2
        omega
      · intro _
        exact hstop
    · by_cases hrest : rest = []
      · subst hrest
        refine ⟨1, le_rfl, by simp, ?_, ?_, ?_⟩
        · unfold evictSeq
          rw [if_neg hstop]
          rfl
        · intro t h1 h2
          omega
        · intro hcon
          simp at hcon
      · obtain ⟨j, hj1, hjlen, heq, hcond, hlast⟩ := ih (i + 1) hrest
        refine ⟨j + 1, by omega, by simp; omega, ?_, ?_, ?_⟩
        · unfold evictSeq
          rw [if_neg hstop, heq]
          rfl
        · intro t h1 h2
          rcases Nat.eq_or_lt_of_le h1 with rfl | h1
          · exact hstop
          · have := hcond (t - 1) (by omega) (by omega)
            have harith : i + 1 + (t - 1) = i + t := by omega
            rwa [harith] at this
        · intro hlt
          have := hlast (by simpa using Nat.lt_of_add_lt_add_right hlt)
          have harith : i + 1 + j = i + (j + 1) := by omega
          rwa [harith] at this

theorem sortedByAccess_pairwise (la : List (String × Int)) :
    (sortedByAccess la).Pairwise (fun a b => a.2 ≤ b.2) := by
  unfold sortedByAccess
  haveI : IsTotal (String × Int) (fun a b => a.2 ≤ b.2) :=
    ⟨fun a b => Int.le_total a.2 b.2⟩
  haveI : IsTrans (String × Int) (fun a b => a.2 ≤ b.2) :=
    ⟨fun a b c hab hbc => le_trans hab hbc⟩
  exact List.sorted_insertionSort _ la

theorem sortedByAccess_mem (la : List (String × Int)) (e : String × Int) :
    e ∈ sortedByAccess la ↔ e ∈ la :=
  (List.perm_insertionSort _ la).mem_iff

/-- C5: the memory-pressure pass evicts nothing when utilisation is at or
below the threshold; when it exceeds the threshold and at least one
partition is tracked, the pass evicts a nonempty prefix of the tracked
partitions sorted by last access ascending (oldest first), limited to the
oldest max(1, n/4), re-checking memory after each eviction and stopping
exactly at the first re-check that reads below the threshold. -/
theorem memory_pressure_pass_correct (mem : Nat → Int) (thr : Int)
    (la : List (String × Int)) :
    (¬ thr < mem 0 → check_memory_and_cleanup mem thr la = []) ∧
    (thr < mem 0 → la ≠ [] →
      1 ≤ (check_memory_and_cleanup mem thr la).length ∧
      (check_memory_and_cleanup mem thr la).Pairwise (fun a b => a.2 ≤ b.2) ∧
      (∀ e ∈ check_memory_and_cleanup mem thr la, e ∈ la) ∧
      ∃ j, 1 ≤ j ∧ j ≤ max 1 ((sortedByAccess la).length / 4) ∧
        check_memory_and_cleanup mem thr la =
          ((sortedByAccess la).take (max 1 ((sortedByAccess la).length / 4))).take j ∧
        (∀ t, 1 ≤ t → t < j → ¬ (mem t < thr)) ∧
        (j < max 1 ((sortedByAccess la).length / 4) → mem j < thr)) := by
  constructor
  · intro hmem
    unfold check_memory_and_cleanup
    rw [if_neg hmem]
  · intro hmem hla
    have hlen : 1 ≤ (sortedByAccess la).length := by
      have hla2 : la.length ≠ 0 := fun hcon =>
        hla (List.length_eq_zero.mp hcon)
      have := (List.perm_insertionSort
        (fun (a b : String × Int) => a.2 ≤ b.2) la).length_eq
      unfold sortedByAccess
      omega
    set k := max 1 ((sortedByAccess la).length / 4) with hk
    have hkle : k ≤ (sortedByAccess la).length := by
      apply max_le hlen
      exact Nat.div_le_self _ _
    have hLlen : ((sortedByAccess la).take k).length = k := by
      rw [List.length_take]
      omega
    have hLne : (sortedByAccess la).take k ≠ [] := by
      intro hcon
      rw [hcon] at hLlen
      simp at hLlen
      omega
    obtain ⟨j, hj1, hjlen, heq, hcond, hlast⟩ :=
      evictSeq_spec mem thr ((sortedByAccess la).take k) 0 hLne
    have hcm : check_memory_and_cleanup mem thr la =
        ((sortedByAccess la).take k).take j := by
      unfold check_memory_and_cleanup
      rw [if_pos hmem]
      exact heq
    rw [hLlen] at hjlen hlast
    refine ⟨?_, ?_, ?_, j, hj1, hjlen, hcm, ?_, ?_⟩
    · rw [hcm, List.length_take, hLlen]
      omega
    · rw [hcm]
      exact ((sortedByAccess_pairwise la).sublist
        ((List.take_sublist _ _).trans (List.take_sublist _ _)))
    · intro e he
      rw [hcm] at he
      have := List.mem_of_mem_take (List.mem_of_mem_take he)
      exact (sortedByAccess_mem la e).mp this
    · intro t h1 h2
      have := hcond t h1 h2
      simpa using this
    · intro hlt
      have := hlast hlt
      simpa using this

/-- Witness for memory_pressure_pass_correct: utilisation 90 over
threshold 80 with two tracked partitions; the oldest (c/p2, accessed at
3) is evicted, the re-check reads 70 and the pass stops; with threshold
95 nothing is evicted. -/
theorem memory_pressure_pass_correct_witness :
    check_memory_and_cleanup (fun i => if i = 0 then 90 else 70) 80
      [("c/p1", 5), ("c/p2", 3)] = [("c/p2", 3)] ∧
    1 ≤ (check_memory_and_cleanup (fun i => if i = 0 then 90 else 70) 80
      [("c/p1", 5), ("c/p2", 3)]).length ∧
    check_memory_and_cleanup (fun i => if i = 0 then 90 else 70) 95
      [("c/p1", 5), ("c/p2", 3)] = [] := by
  refine ⟨by decide, ?_, ?_⟩
  · exact ((memory_pressure_pass_correct (fun i => if i = 0 then 90 else 70) 80
      [("c/p1", 5), ("c/p2", 3)]).2 (by decide) (by decide)).1
  · exact (memory_pressure_pass_correct (fun i => if i = 0 then 90 else 70) 95
      [("c/p1", 5), ("c/p2", 3)]).1 (by decide)

/-! ## Lemmas about the singleflight model -/

theorem loadStep_inv {n : Nat} {s s' : LoadSys n} (h : LoadStep s s')
    (hinv : LoadInv s) : LoadInv s' := by
  obtain ⟨h1, h2, h3, h4, h5⟩ := hinv
  cases h with
  | fastHit i hpc hl =>
    refine ⟨h1, h2, ?_, ?_, ?_⟩
    · intro j r hj
      by_cases hji : j = i
      · subst hji
        simp only [Function.update_same] at hj
        cases hj
        exact ⟨rfl, hl⟩
      · simp only [Function.update_noteq hji] at hj
        exact h3 j r hj
    · intro j hj
      by_cases hji : j = i
      · subst hji
        simp only [Function.update_same] at hj
        rcases hj with hj | hj <;> cases hj
      · simp only [Function.update_noteq hji] at hj
        exact h4 j hj
    · intro j hj
      by_cases hji : j = i
      · subst hji
        simp only [Function.update_same] at hj
        cases hj
      · simp only [Function.update_noteq hji] at hj
        rw [h5 j hj] at hl
        cases hl
  | fastMiss i hpc hl =>
    refine ⟨h1, h2, ?_, ?_, ?_⟩
    · intro j r hj
      by_cases hji : j = i
      · subst hji
        simp only [Function.update_same] at hj
        cases hj
      · simp only [Function.update_noteq hji] at hj
        exact h3 j r hj
    · intro j hj
      by_cases hji : j = i
      · subst hji
        simp only [Function.update_same] at hj
        rcases hj with hj | hj <;> cases hj
      · simp only [Function.update_noteq hji] at hj
        exact h4 j hj
    · intro j hj
      by_cases hji : j = i
      · subst hji
        simp only [Function.update_same] at hj
        cases hj
      · simp only [Function.update_noteq hji] at hj
        exact h5 j hj
  | acquire i hpc hlock =>
    refine ⟨h1, h2, ?_, ?_, ?_⟩
    · intro j r hj
      by_cases hji : j = i
      · subst hji
        simp only [Function.update_same] at hj
        cases hj
      · simp only [Function.update_noteq hji] at hj
        exact h3 j r hj
    · intro j hj
      by_cases hji : j = i
      · subst hji
        rfl
      · simp only [Function.update_noteq hji] at hj
        rw [h4 j hj] at hlock
        cases hlock
    · intro j hj
      by_cases hji : j = i
      · subst hji
        simp only [Function.update_same] at hj
        cases hj
      · simp only [Function.update_noteq hji] at hj
        exact h5 j hj
  | recheckHit i hpc hlock hl =>
    refine ⟨h1, h2, ?_, ?_, ?_⟩
    · intro j r hj
      by_cases hji : j = i
      · subst hji
        simp only [Function.update_same] at hj
        cases hj
        exact ⟨rfl, hl⟩
      · simp only [Function.update_noteq hji] at hj
        exact h3 j r hj
    · intro j hj
      by_cases hji : j = i
      · subst hji
        simp only [Function.update_same] at hj
        rcases hj with hj | hj <;> cases hj
      · simp only [Function.update_noteq hji] at hj
        have := h4 j hj
        rw [hlock] at this
        cases this
        exact absurd rfl hji
    · intro j hj
      by_cases hji : j = i
      · subst hji
        simp only [Function.update_same] at hj
        cases hj
      · simp only [Function.update_noteq hji] at hj
        rw [h5 j hj] at hl
        cases hl
  | recheckMiss i hpc hlock hl =>
    refine ⟨h1, h2, ?_, ?_, ?_⟩
    · intro j r hj
      by_cases hji : j = i
      · subst hji
        simp only [Function.update_same] at hj
        cases hj
      · simp only [Function.update_noteq hji] at hj
        exact h3 j r hj
    · intro j hj
      by_cases hji : j = i
      · subst hji
        exact hlock
      · simp only [Function.update_noteq hji] at hj
        exact h4 j hj
    · intro j hj
      by_cases hji : j = i
      · subst hji
        exact hl
      · simp only [Function.update_noteq hji] at hj
        exact h5 j hj
  | doLoad i hpc hlock =>
    have hnl : s.loaded = false := h5 i hpc
    refine ⟨?_, ?_, ?_, ?_, ?_⟩
    · intro _
      show s.loads + 1 = 1
      rw [h2 hnl]
    · intro hcon
      cases hcon
    · intro j r hj
      by_cases hji : j = i
      · subst hji
        simp only [Function.update_same] at hj
        cases hj
        exact ⟨rfl, rfl⟩
      · simp only [Function.update_noteq hji] at hj
        exact ⟨(h3 j r hj).1, rfl⟩
    · intro j hj
      by_cases hji : j = i
      · subst hji
        simp only [Function.update_same] at hj
        rcases hj with hj | hj <;> cases hj
      · simp only [Function.update_noteq hji] at hj
        have := h4 j hj
        rw [hlock] at this
        cases this
        exact absurd rfl hji
    · intro j hj
      by_cases hji : j = i
      · subst hji
        simp only [Function.update_same] at hj
        cases hj
      · simp only [Function.update_noteq hji] at hj
        have := h4 j (Or.inr hj)
        rw [hlock] at this
        cases this
        exact absurd rfl hji

theorem loadInv_of_reachable {n : Nat} (s : LoadSys n) (h : LoadReachable s) :
    LoadInv s := by
  unfold LoadReachable at h
  induction h with
  | refl =>
    refine ⟨?_, fun _ => rfl, ?_, ?_, ?_⟩
    · intro hcon
      cases hcon
    · intro j r hj
      cases hj
    · intro j hj
      rcases hj with hj | hj <;> cases hj
    · intro j hj
      cases hj
  | tail hsteps hstep ih => exact loadStep_inv hstep ih

/-- C3: in any interleaved execution of N tasks running
ensure_partition_loaded for one key, starting untracked, once every task
has returned, exactly one load call was issued to the vector store and
every task returned true — the per-key lock serialises the loads and a
task acquiring the lock after the load re-checks the tracked state and
short-circuits. -/
theorem ensure_loaded_singleflight {n : Nat} (s : LoadSys n)
    (hreach : LoadReachable s) (hn : 0 < n)
    (hdone : ∀ i, ∃ r, s.pcs i = .finished r) :
    s.loads = 1 ∧ ∀ i, s.pcs i = .finished true := by
  obtain ⟨h1, h2, h3, h4, h5⟩ := loadInv_of_reachable s hreach
  obtain ⟨r0, hr0⟩ := hdone ⟨0, hn⟩
  have hload := (h3 _ _ hr0).2
  refine ⟨h1 hload, fun i => ?_⟩
  obtain ⟨r, hr⟩ := hdone i
  have hri := h3 i r hr
  rw [hri.1] at hr
  exact hr

theorem LoadSys.ext2 {n : Nat} (a b : LoadSys n) (h1 : a.loaded = b.loaded)
    (h2 : a.loads = b.loads) (h3 : a.lock = b.lock)
    (h4 : ∀ i, a.pcs i = b.pcs i) : a = b := by
  cases a
  cases b
  simp only [LoadSys.mk.injEq]
  exact ⟨h1, h2, h3, funext h4⟩

/-- Witness for ensure_loaded_singleflight: an explicit interleaving of
two tasks — both miss the fast path, task 0 takes the lock, re-checks,
loads; task 1 then takes the lock, re-checks and short-circuits. The
final configuration has exactly one load and both tasks returned true. -/
theorem ensure_loaded_singleflight_witness :
    LoadReachable (⟨true, 1, none, fun _ => .finished true⟩ : LoadSys 2) ∧
    (⟨true, 1, none, fun _ => .finished true⟩ : LoadSys 2).loads = 1 ∧
    ∀ i : Fin 2,
      (⟨true, 1, none, fun _ => .finished true⟩ : LoadSys 2).pcs i =
        .finished true := by
  have hreach : LoadReachable
      (⟨true, 1, none, fun _ => .finished true⟩ : LoadSys 2) := by
    unfold LoadReachable
    refine Relation.ReflTransGen.head
      (LoadStep.fastMiss (LoadSys.init 2) 0 rfl rfl) ?_
    refine Relation.ReflTransGen.head (LoadStep.fastMiss _ 1 rfl rfl) ?_
    refine Relation.ReflTransGen.head (LoadStep.acquire _ 0 rfl rfl) ?_
    refine Relation.ReflTransGen.head (LoadStep.recheckMiss _ 0 rfl rfl rfl) ?_
    refine Relation.ReflTransGen.head (LoadStep.doLoad _ 0 rfl rfl) ?_
    refine Relation.ReflTransGen.head (LoadStep.acquire _ 1 rfl rfl) ?_
    refine Relation.ReflTransGen.head (LoadStep.recheckHit _ 1 rfl rfl rfl) ?_
    have hrefl : ∀ (a b : LoadSys 2), a = b →
        Relation.ReflTransGen LoadStep a b := fun a b h =>
      h ▸ Relation.ReflTransGen.refl
    apply hrefl
    apply LoadSys.ext2
    · rfl
    · rfl
    · rfl
    · intro i
      fin_cases i <;> rfl
  have h := ensure_loaded_singleflight _ hreach (by decide)
    (fun i => ⟨true, by fin_cases i <;> rfl⟩)
  exact ⟨hreach, h.1, h.2⟩
